import Mathlib

/-!
# BetterResume — verification of the resume-generation pipeline specification

This file gives a shallow embedding of the parts of the BetterResume
repository that the specification talks about, and proves (or refutes) the
claims made about them.

Conventions:
* JavaScript strings are modelled as Lean `String` (a wrapper around
  `List Char`); primitive string operations used by the code
  (`includes`, `split`, `trim`, `slice`, `startsWith`, `replace`) are
  re-implemented structurally on the character list so that they are
  executable and kernel-reducible.
* Components of the repository whose code is not present in the frontend
  sources (the backend orchestrator, synthesizer, retriever and cache)
  are modelled from the specification; every such definition carries a
  doc comment starting with "Modelled from the spec:".
-/

namespace BetterResume

/-! ## Basic JS string primitives, modelled on character lists -/

/-- Does the first list start with the second one?  Models the prefix test
used by `String.prototype.startsWith`. -/
def startsWithSeq : List Char → List Char → Bool
  | _, [] => true
  | [], _ :: _ => false
  | c :: cs, d :: ds => c == d && startsWithSeq cs ds

/-- Does `needle` occur contiguously inside `hay`?  Models
`String.prototype.includes`. -/
def containsSeq : List Char → List Char → Bool
  | [], needle => startsWithSeq [] needle
  | c :: cs, needle => startsWithSeq (c :: cs) needle || containsSeq cs needle

/-- Whitespace test used to model `String.prototype.trim`. -/
def isWs (c : Char) : Bool := c.isWhitespace

/-- Models `String.prototype.trim`: drop whitespace from both ends. -/
def trimChars (l : List Char) : List Char :=
  ((l.dropWhile isWs).reverse.dropWhile isWs).reverse

/-- String-level wrapper of `trimChars`. -/
def trimStr (s : String) : String := ⟨trimChars s.data⟩

/-- Models `String.prototype.slice(n)` (drop the first `n` characters). -/
def dropStr (s : String) (n : Nat) : String := ⟨s.data.drop n⟩

/-- String-level wrapper of `startsWithSeq`. -/
def startsWithStr (s pre : String) : Bool := startsWithSeq s.data pre.data

/-- String-level wrapper of `containsSeq`. -/
def containsStr (s sub : String) : Bool := containsSeq s.data sub.data

/-- Fuelled worker for `jsSplit`.  One unit of fuel is spent per input
character, so `fuel = l.length` always suffices. -/
def splitGo (sep : List Char) : Nat → List Char → List Char → List (List Char)
  | _, [], acc => [acc.reverse]
  | 0, rest, acc => [acc.reverse ++ rest]
  | Nat.succ fuel, c :: rest, acc =>
    if sep ≠ [] ∧ startsWithSeq (c :: rest) sep = true then
      acc.reverse :: splitGo sep fuel ((c :: rest).drop sep.length) []
    else
      splitGo sep fuel rest (c :: acc)

/-- Models `String.prototype.split(sep)` for a non-empty string separator:
leftmost, non-overlapping occurrences of `sep` cut the string; the list of
pieces is returned (always non-empty). -/
def jsSplit (s sep : String) : List String :=
  (splitGo sep.data s.data.length s.data []).map (fun l => ⟨l⟩)

/-- Models `String.prototype.toLowerCase` (character-wise). -/
def lowerStr (s : String) : String := ⟨s.data.map Char.toLower⟩

/-! ## Data model: `ResumeEntry` from `frontend/src/types.ts`

The TypeScript interface has a required `type` and `role` and optional
`company`, `location`, `start`, `end`, `description`, `role_description`.
The reserved word `end` is rendered `end_`. -/

structure ResumeEntry where
  type : String
  role : String
  company : Option String
  location : Option String
  start : Option String
  end_ : Option String
  description : Option String
  role_description : Option String
deriving DecidableEq, Repr

namespace Csv

/-- Quoting test from `sanitize` in `frontend/src/services/geolocation.ts`:
`v.includes(',') || v.includes('\n') || v.includes('"')`. -/
def needsQuoting (v : List Char) : Bool :=
  v.contains ',' || v.contains '\n' || v.contains '"'

/-- Models `v.replace(/"/g, '""')`: every double-quote character is doubled. -/
def escapeQuotes : List Char → List Char
  | [] => []
  | c :: cs => if c = '"' then '"' :: '"' :: escapeQuotes cs else c :: escapeQuotes cs

/-- The `sanitize` helper of `buildCsvFromEntries`
(`frontend/src/services/geolocation.ts`): a field containing a comma,
newline or double quote is wrapped in double quotes with inner quotes
doubled; any other field is emitted verbatim. -/
def sanitize (v : List Char) : List Char :=
  if needsQuoting v then '"' :: (escapeQuotes v ++ ['"']) else v

/-- Inverse of quote doubling: each `""` pair collapses to one `"`. -/
def unescapeQuotes : List Char → List Char
  | [] => []
  | [c] => [c]
  | c :: c' :: cs =>
    if c = '"' ∧ c' = '"' then '"' :: unescapeQuotes cs
    else c :: unescapeQuotes (c' :: cs)

/-- Is `s` a quoted CSV field (wrapped in double quotes, length at least 2)? -/
def isQuotedField (s : List Char) : Bool :=
  match s with
  | c :: rest => c = '"' && rest.getLast? = some '"'
  | [] => false

/-- Field-level CSV decoder under standard (RFC 4180) quoting rules: a
field wrapped in double quotes is stripped of them and embedded `""`
pairs collapse to `"`; any other field is taken verbatim. -/
def decodeCsvField (s : List Char) : List Char :=
  match s with
  | c :: rest =>
    if c = '"' ∧ rest.getLast? = some '"' then unescapeQuotes rest.dropLast
    else s
  | [] => s

/-- String-level `sanitize`. -/
def sanitizeStr (v : String) : String := ⟨sanitize v.data⟩

/-- String-level `decodeCsvField`. -/
def decodeCsvFieldStr (s : String) : String := ⟨decodeCsvField s.data⟩

/-- String-level `needsQuoting`. -/
def needsQuotingStr (v : String) : Bool := needsQuoting v.data

/-- String-level `isQuotedField`. -/
def isQuotedFieldStr (s : String) : Bool := isQuotedField s.data

/-- CSV header from `buildCsvFromEntries` in
`frontend/src/services/geolocation.ts`. -/
def header : List String :=
  ["type", "company", "location", "role", "start_date", "end_date", "description"]

/-- The entry types accepted by the work-like branch of
`buildCsvFromEntries`. -/
def workTypes : List String :=
  ["job", "contract", "part-time", "project", "non-profit", "education", "certification"]

/-- Models `('0'.repeat(…))`-style `padStart(2, '0')` on a digit group. -/
def padTwo (s : List Char) : List Char := List.replicate (2 - s.length) '0' ++ s

/-- Splits a leading digit run off a character list. -/
def digitsRun (l : List Char) : List Char × List Char :=
  (l.takeWhile Char.isDigit, l.dropWhile Char.isDigit)

/-- Matcher for the regex `^(\d{1,2})\/(\d{4})$` (month/year). -/
def matchMonthYear (l : List Char) : Option (List Char × List Char) :=
  let p := digitsRun l
  if 1 ≤ p.1.length ∧ p.1.length ≤ 2 then
    match p.2 with
    | '/' :: r2 =>
      let q := digitsRun r2
      if q.1.length = 4 ∧ q.2 = [] then some (p.1, q.1) else none
    | _ => none
  else none

/-- Matcher for the regex `year, slash-or-dash, 1-2 digit month, end` (year, separator,
month); returns `(year, month)`. -/
def matchYearMonth (l : List Char) : Option (List Char × List Char) :=
  let p := digitsRun l
  if p.1.length = 4 then
    match p.2 with
    | c :: r2 =>
      if c = '/' ∨ c = '-' then
        let q := digitsRun r2
        if 1 ≤ q.1.length ∧ q.1.length ≤ 2 ∧ q.2 = [] then some (p.1, q.1) else none
      else none
    | _ => none
  else none

/-- Matcher for the regex `1-2 digit day, sep, 1-2 digit month, sep, 4 digit year`;
returns `(day, month, year)`. -/
def matchDayMonthYear (l : List Char) : Option (List Char × List Char × List Char) :=
  let p := digitsRun l
  if 1 ≤ p.1.length ∧ p.1.length ≤ 2 then
    match p.2 with
    | c :: r2 =>
      if c = '/' ∨ c = '-' then
        let q := digitsRun r2
        if 1 ≤ q.1.length ∧ q.1.length ≤ 2 then
          match q.2 with
          | c' :: r3 =>
            if c' = '/' ∨ c' = '-' then
              let w := digitsRun r3
              if w.1.length = 4 ∧ w.2 = [] then some (p.1, q.1, w.1) else none
            else none
          | _ => none
        else none
      else none
    | _ => none
  else none

/-- The `norm` date normaliser of `buildCsvFromEntries`
(`frontend/src/services/geolocation.ts`): trims, maps the words
present/current/now to `present`, rewrites `MM/YYYY`, `YYYY/MM` and
`DD/MM/YYYY` shapes to `dd/mm/YYYY` with zero padding, and leaves any
other string unchanged. -/
def norm (val : Option String) : String :=
  match val with
  | none => ""
  | some v0 =>
    let v := trimStr v0
    if v = "" then ""
    else
      let low := lowerStr v
      if low = "present" ∨ low = "current" ∨ low = "now" then "present"
      else
        match matchMonthYear v.data with
        | some my => ⟨('0' :: '1' :: '/' :: padTwo my.1) ++ '/' :: my.2⟩
        | none =>
          match matchYearMonth v.data with
          | some ym => ⟨('0' :: '1' :: '/' :: padTwo ym.2) ++ '/' :: ym.1⟩
          | none =>
            match matchDayMonthYear v.data with
            | some dmy => ⟨padTwo dmy.1 ++ '/' :: (padTwo dmy.2.1 ++ '/' :: dmy.2.2)⟩
            | none => v

/-- Description column: `(e.description || '') +
(e.role_description ? '\n' + e.role_description : '')`. -/
def descField (e : ResumeEntry) : String :=
  (e.description.getD "") ++
    (match e.role_description with
     | some rd => if rd = "" then "" else "\n" ++ rd
     | none => "")

/-- Raw (pre-`sanitize`) field values pushed for one entry by
`buildCsvFromEntries`; `none` when the entry type matches neither branch. -/
def rowFields (e : ResumeEntry) : Option (List String) :=
  if e.type = "info" then
    some [e.type, e.role, "", "", "", "", descField e]
  else if workTypes.contains e.type then
    some [e.type, e.company.getD "", e.location.getD "", e.role,
          norm e.start, norm e.end_, descField e]
  else none

/-- Function `buildCsvFromEntries` from `frontend/src/services/geolocation.ts`:
header line plus one comma-joined, field-sanitized line per accepted
entry, joined by newlines. -/
def buildCsvFromEntries (entries : List ResumeEntry) : String :=
  String.intercalate "\n"
    (String.intercalate "," header ::
      entries.filterMap
        (fun e => (rowFields e).map (fun fs => String.intercalate "," (fs.map sanitizeStr))))

theorem escapeQuotes_ne_nil {cs : List Char} (h : cs ≠ []) : escapeQuotes cs ≠ [] := by
  cases cs with
  | nil => exact absurd rfl h
  | cons c cs =>
    by_cases hc : c = '"' <;> simp [escapeQuotes, hc]

theorem unescapeQuotes_cons_cons (c c' : Char) (cs : List Char) :
    unescapeQuotes (c :: c' :: cs) =
      if c = '"' ∧ c' = '"' then '"' :: unescapeQuotes cs
      else c :: unescapeQuotes (c' :: cs) := rfl

theorem unescapeQuotes_escapeQuotes (v : List Char) :
    unescapeQuotes (escapeQuotes v) = v := by
  induction v with
  | nil => rfl
  | cons c cs ih =>
    by_cases hc : c = '"'
    · subst hc
      rw [escapeQuotes, if_pos rfl, unescapeQuotes_cons_cons, if_pos ⟨rfl, rfl⟩, ih]
    · rw [escapeQuotes, if_neg hc]
      cases hcs : escapeQuotes cs with
      | nil =>
        have : cs = [] := by
          by_contra hne
          exact escapeQuotes_ne_nil hne hcs
        subst this
        simp [unescapeQuotes]
      | cons d ds =>
        rw [unescapeQuotes_cons_cons, if_neg (fun h => hc h.1), ← hcs, ih]

theorem needsQuoting_eq_false_not_mem {v : List Char} (h : needsQuoting v = false) :
    ',' ∉ v ∧ '\n' ∉ v ∧ '"' ∉ v := by
  simp only [needsQuoting, Bool.or_eq_false_iff] at h
  exact ⟨by simpa using h.1.1, by simpa using h.1.2, by simpa using h.2⟩

theorem decodeCsvField_sanitize (v : List Char) : decodeCsvField (sanitize v) = v := by
  by_cases h : needsQuoting v = true
  · rw [sanitize, if_pos h, decodeCsvField,
      if_pos ⟨rfl, by simp⟩, List.dropLast_concat, unescapeQuotes_escapeQuotes]
  · rw [sanitize, if_neg h]
    rcases needsQuoting_eq_false_not_mem (Bool.eq_false_iff.mpr h) with ⟨-, -, hq⟩
    cases v with
    | nil => rfl
    | cons c rest =>
      have hc : c ≠ '"' := fun hc => hq (hc ▸ List.mem_cons_self c rest)
      rw [decodeCsvField, if_neg (fun h' => hc h'.1)]

theorem isQuotedField_sanitize (v : List Char) :
    isQuotedField (sanitize v) = needsQuoting v := by
  by_cases h : needsQuoting v = true
  · rw [sanitize, if_pos h, h, isQuotedField]
    simp
  · rw [sanitize, if_neg h, Bool.eq_false_iff.mpr h]
    rcases needsQuoting_eq_false_not_mem (Bool.eq_false_iff.mpr h) with ⟨-, -, hq⟩
    cases v with
    | nil => rfl
    | cons c rest =>
      have hc : c ≠ '"' := fun hc => hq (hc ▸ List.mem_cons_self c rest)
      simp [isQuotedField, hc]

/-- C9.  `buildCsvFromEntries` emits, per accepted entry, the entry's raw
field values each passed through `sanitize` and joined with commas; and
`sanitize` wraps a field in double quotes (with inner quotes doubled)
exactly when the field contains a comma, newline or double quote, in such
a way that decoding the produced field under standard CSV quoting rules
recovers the original value. -/
theorem csv_field_encode_decode_round_trip :
    (∀ entries : List ResumeEntry,
      buildCsvFromEntries entries = String.intercalate "\n"
        (String.intercalate "," header ::
          entries.filterMap
            (fun e => (rowFields e).map
              (fun fs => String.intercalate "," (fs.map sanitizeStr))))) ∧
    (∀ v : String,
      decodeCsvFieldStr (sanitizeStr v) = v ∧
      isQuotedFieldStr (sanitizeStr v) = needsQuotingStr v) := by
  constructor
  · intro entries
    rfl
  · intro v
    constructor
    · show String.mk (decodeCsvField (sanitize v.data)) = v
      rw [decodeCsvField_sanitize]
    · show isQuotedField (sanitize v.data) = needsQuoting v.data
      rw [isQuotedField_sanitize]

end Csv

namespace Api

/-- Models `API_BASE.replace(/\/$/, '')`: remove one trailing slash. -/
def stripTrailingSlash (s : String) : String :=
  if s.data.getLast? = some '/' then ⟨s.data.dropLast⟩ else s

/-- The `fix` path normaliser inside `generateResume`
(`frontend/src/services/api.ts`): empty and absolute (`http…`) paths are
returned unchanged; a path already containing `/download/` is prefixed
with the API base; a bare filename is expanded to
`API_BASE/download/<userId>/<p>`.  `enc` abstracts
`encodeURIComponent`. -/
def fix (apiBase : String) (enc : String → String) (userId p : String) : String :=
  if p = "" then p
  else if startsWithStr p "http" then p
  else if containsStr p "/download/" then stripTrailingSlash apiBase ++ p
  else stripTrailingSlash apiBase ++ "/download/" ++ enc userId ++ "/" ++ p

/-- The `toAbs` path normaliser inside the `done` branch of
`generateResumeStream` (`frontend/src/services/api.ts`), translated
independently of `fix`. -/
def toAbs (apiBase : String) (enc : String → String) (userId p : String) : String :=
  if p = "" then p
  else if startsWithStr p "http" then p
  else if containsStr p "/download/" then stripTrailingSlash apiBase ++ p
  else stripTrailingSlash apiBase ++ "/download/" ++ enc userId ++ "/" ++ p

/-! ### The SSE pump of `generateResumeStream`

`generateResumeStream` reads the response body chunk by chunk, appends
each chunk to a buffer, splits the buffer on blank lines (`"\n\n"`),
processes every complete part and keeps the last (incomplete) part as the
new buffer.  A complete part is handled only when its trimmed text starts
with `data:`; the rest of the line is JSON-parsed, a successful parse is
passed to `onEvent` (and resolves/rejects the promise on the `done` /
`error` stages), and a parse failure is silently ignored.  The JSON
parser and payload type are abstracted by `parse : String → Option J`,
and the stage tests by `isDone`/`isError`. -/

structure StreamState (J : Type) where
  buffer : String
  events : List J
  settled : Option (Except J J)
deriving Repr

/-- The event (if any) extracted from one complete frame: trim, require a
`data:` first line, drop the five characters of `data:`, trim and parse. -/
def frameEvent {J : Type} (parse : String → Option J) (part : String) : Option J :=
  let line := trimStr part
  if startsWithStr line "data:" then parse (trimStr (dropStr line 5)) else none

/-- Promise settlement: the first `resolve`/`reject` wins; an event on the
`done` stage resolves, one on the `error` stage rejects, anything else
leaves the promise pending. -/
def settleStep {J : Type} (isDone isError : J → Bool) (st : Option (Except J J)) (j : J) :
    Option (Except J J) :=
  match st with
  | some s => some s
  | none =>
    if isDone j then some (Except.ok j)
    else if isError j then some (Except.error j)
    else none

/-- Processing of one complete frame inside the pump loop. -/
def processPart {J : Type} (parse : String → Option J) (isDone isError : J → Bool)
    (st : StreamState J) (part : String) : StreamState J :=
  match frameEvent parse part with
  | none => st
  | some j =>
    { st with
      events := st.events ++ [j]
      settled := settleStep isDone isError st.settled j }

/-- One iteration of `pump()`: append the chunk to the buffer, split on
blank lines, process all complete parts, keep the trailing part. -/
def processChunk {J : Type} (parse : String → Option J) (isDone isError : J → Bool)
    (st : StreamState J) (chunk : String) : StreamState J :=
  let parts := jsSplit (st.buffer ++ chunk) "\n\n"
  let st1 := parts.dropLast.foldl (processPart parse isDone isError) st
  { st1 with buffer := parts.getLastD "" }

/-- The whole stream consumption of `generateResumeStream`, over the list
of chunks delivered by the reader in arrival order. -/
def runStream {J : Type} (parse : String → Option J) (isDone isError : J → Bool)
    (chunks : List String) : StreamState J :=
  chunks.foldl (processChunk parse isDone isError) ⟨"", [], none⟩

/-- Complete frames carved out of a chunk sequence by the buffer-and-split
discipline of the pump (the trailing incomplete part is discarded, as the
code does on reader end). -/
def framesAux (chunks : List String) (start : List String × String) : List String × String :=
  chunks.foldl
    (fun acc chunk =>
      let parts := jsSplit (acc.2 ++ chunk) "\n\n"
      (acc.1 ++ parts.dropLast, parts.getLastD ""))
    start

/-- The complete frames of a full chunk sequence. -/
def completeFrames (chunks : List String) : List String := (framesAux chunks ([], "")).1

theorem foldl_processPart {J : Type} (parse : String → Option J) (isDone isError : J → Bool) :
    ∀ (parts : List String) (st : StreamState J),
      parts.foldl (processPart parse isDone isError) st =
        ⟨st.buffer, st.events ++ parts.filterMap (frameEvent parse),
          (parts.filterMap (frameEvent parse)).foldl (settleStep isDone isError) st.settled⟩ := by
  intro parts
  induction parts with
  | nil => intro st; simp
  | cons p ps ih =>
    intro st
    cases h : frameEvent parse p with
    | none =>
      simp only [List.foldl_cons, List.filterMap_cons, h, processPart]
      exact ih st
    | some j =>
      simp only [List.foldl_cons, List.filterMap_cons, h, processPart, ih, List.foldl_cons,
        List.append_assoc]
      rfl

theorem framesAux_acc : ∀ (chunks : List String) (acc : List String) (buf : String),
    framesAux chunks (acc, buf) =
      (acc ++ (framesAux chunks ([], buf)).1, (framesAux chunks ([], buf)).2) := by
  intro chunks
  induction chunks with
  | nil => intro acc buf; simp [framesAux]
  | cons c cs ih =>
    intro acc buf
    have h2 : framesAux (c :: cs) ([], buf) =
        ((jsSplit (buf ++ c) "\n\n").dropLast ++
            (framesAux cs ([], (jsSplit (buf ++ c) "\n\n").getLastD "")).1,
          (framesAux cs ([], (jsSplit (buf ++ c) "\n\n").getLastD "")).2) := by
      show framesAux cs
          ([] ++ (jsSplit (buf ++ c) "\n\n").dropLast,
            (jsSplit (buf ++ c) "\n\n").getLastD "") = _
      rw [List.nil_append]
      exact ih _ _
    have h1 : framesAux (c :: cs) (acc, buf) =
        (acc ++ (jsSplit (buf ++ c) "\n\n").dropLast ++
            (framesAux cs ([], (jsSplit (buf ++ c) "\n\n").getLastD "")).1,
          (framesAux cs ([], (jsSplit (buf ++ c) "\n\n").getLastD "")).2) := by
      show framesAux cs
          (acc ++ (jsSplit (buf ++ c) "\n\n").dropLast,
            (jsSplit (buf ++ c) "\n\n").getLastD "") = _
      exact ih _ _
    rw [h1, h2]
    simp [List.append_assoc]

theorem runStream_foldl {J : Type} (parse : String → Option J) (isDone isError : J → Bool) :
    ∀ (chunks : List String) (st : StreamState J),
      chunks.foldl (processChunk parse isDone isError) st =
        ⟨(framesAux chunks ([], st.buffer)).2,
         st.events ++ (framesAux chunks ([], st.buffer)).1.filterMap (frameEvent parse),
         ((framesAux chunks ([], st.buffer)).1.filterMap (frameEvent parse)).foldl
           (settleStep isDone isError) st.settled⟩ := by
  intro chunks
  induction chunks with
  | nil => intro st; simp [framesAux]
  | cons c cs ih =>
    intro st
    simp only [List.foldl_cons]
    rw [show processChunk parse isDone isError st c =
          ⟨(jsSplit (st.buffer ++ c) "\n\n").getLastD "",
           st.events ++ ((jsSplit (st.buffer ++ c) "\n\n").dropLast.filterMap (frameEvent parse)),
           (((jsSplit (st.buffer ++ c) "\n\n").dropLast.filterMap (frameEvent parse))).foldl
             (settleStep isDone isError) st.settled⟩ by
        simp only [processChunk, foldl_processPart]]
    rw [ih]
    have hframes : framesAux (c :: cs) ([], st.buffer) =
        ((jsSplit (st.buffer ++ c) "\n\n").dropLast ++
            (framesAux cs ([], (jsSplit (st.buffer ++ c) "\n\n").getLastD "")).1,
          (framesAux cs ([], (jsSplit (st.buffer ++ c) "\n\n").getLastD "")).2) := by
      show framesAux cs
          ([] ++ (jsSplit (st.buffer ++ c) "\n\n").dropLast,
            (jsSplit (st.buffer ++ c) "\n\n").getLastD "") = _
      rw [List.nil_append]
      exact framesAux_acc cs _ _
    rw [hframes]
    simp [List.filterMap_append, List.foldl_append, List.append_assoc]

theorem foldl_settleStep_none {J : Type} (isDone isError : J → Bool) :
    ∀ (events : List J),
      events.all (fun j => !isDone j && !isError j) = true →
      events.foldl (settleStep isDone isError) none = none := by
  intro events
  induction events with
  | nil => intro _; rfl
  | cons j js ih =>
    intro h
    simp only [List.all_cons, Bool.and_eq_true, Bool.not_eq_true'] at h
    simp only [List.foldl_cons, settleStep, h.1.1, h.1.2, if_neg, Bool.false_eq_true,
      if_false]
    exact ih (by simpa using h.2)

/-- C10.  `generateResumeStream` delivers to `onEvent` exactly the events
obtained by JSON-parsing the complete `data:` frames, once per frame and
in arrival order; a frame whose payload fails to parse contributes no
event, the promise settlement is a function of the successfully parsed
events alone, and when no parsed event is on the `done` or `error` stage
the promise stays pending (in particular parse failures never reject
it). -/
theorem stream_event_per_frame_parse_failures_skipped
    (J : Type) (parse : String → Option J) (isDone isError : J → Bool)
    (chunks : List String) :
    (runStream parse isDone isError chunks).events
        = (completeFrames chunks).filterMap (frameEvent parse)
    ∧ (runStream parse isDone isError chunks).settled
        = ((completeFrames chunks).filterMap (frameEvent parse)).foldl
            (settleStep isDone isError) none
    ∧ (((completeFrames chunks).filterMap (frameEvent parse)).all
          (fun j => !isDone j && !isError j) = true →
        (runStream parse isDone isError chunks).settled = none) := by
  have h := runStream_foldl parse isDone isError chunks ⟨"", [], none⟩
  refine ⟨?_, ?_, ?_⟩
  · rw [runStream, h]; rfl
  · rw [runStream, h]; rfl
  · intro hall
    rw [runStream, h]
    exact foldl_settleStep_none isDone isError _ hall

/-- Concrete inputs for the C10 witness: a `data:` frame split across two
chunks, a frame whose payload does not parse, a non-`data:` frame and a
trailing incomplete part. -/
def chunksW : List String := ["data: 0\n\nda", "ta: bad\n\nignored\n\n tail"]

/-- Witness parser: only the payload `0` parses. -/
def parseW : String → Option Nat := fun s => if s = "0" then some 0 else none

/-- Witness stage test: no event is terminal. -/
def noStage : Nat → Bool := fun _ => false

/-- Witness for C10: on the concrete chunk list the side condition holds
and the promise stays pending even though one frame fails to parse. -/
theorem stream_event_per_frame_parse_failures_skipped_witness :
    ((completeFrames chunksW).filterMap (frameEvent parseW)).all
        (fun j => !noStage j && !noStage j) = true
    ∧ (runStream parseW noStage noStage chunksW).settled = none :=
  ⟨by decide,
   (stream_event_per_frame_parse_failures_skipped Nat parseW noStage noStage chunksW).2.2
     (by decide)⟩

end Api

namespace Orchestrator

/-- The canonical stage order displayed by the frontend
(`stageOrder` in the main application component). -/
def stageOrder : List String :=
  ["csv_info", "invoking_graph", "graph_complete", "parsed", "translating",
   "translated", "writing_file", "done"]

/-- The progress stages a request can emit (§6 of the spec): the canonical
order plus the terminal failure stage `error`. -/
inductive Stage where
  | csv_info
  | invoking_graph
  | graph_complete
  | parsed
  | translating
  | translated
  | writing_file
  | done
  | error
deriving DecidableEq, Repr

/-- The wire name of a stage. -/
def Stage.name : Stage → String
  | .csv_info => "csv_info"
  | .invoking_graph => "invoking_graph"
  | .graph_complete => "graph_complete"
  | .parsed => "parsed"
  | .translating => "translating"
  | .translated => "translated"
  | .writing_file => "writing_file"
  | .done => "done"
  | .error => "error"

/-- Modelled from the spec: a `GenerationResult` is created only on full
pipeline success and carries the draft plus both artifact references. -/
structure GenerationResult where
  result : String
  source_ref : String
  pdf_ref : String
deriving DecidableEq, Repr

/-- A progress event as delivered on the stream: the stage, an optional
human-readable message, and — on `done` only — the draft result and the
two artifact references. -/
structure ProgressEvent where
  stage : Stage
  message : Option String
  result : Option String
  files : Option (String × String)
deriving DecidableEq, Repr

/-- A plain stage-transition event (no payload). -/
def stageEvent (s : Stage) : ProgressEvent := ⟨s, none, none, none⟩

/-- The terminal `done` event, carrying the draft and both artifact
references. -/
def doneEvent (r : GenerationResult) : ProgressEvent :=
  ⟨.done, none, some r.result, some (r.source_ref, r.pdf_ref)⟩

/-- The terminal `error` event, carrying only a human-readable message. -/
def errorEvent (msg : String) : ProgressEvent := ⟨.error, some msg, none, none⟩

/-- Modelled from the spec: the outcome of each unit of work the
orchestrator sequences (§4.5).  The orchestrator is deterministic given
these outcomes: the experience-set check (row count or failure), the
cache lookup (non-fatal, a hit short-circuits), synthesis (§4.2),
final structural validation, translation (§4.3, no-op allowed) and
rendering (§4.4, producing the source and pdf artifacts atomically). -/
structure RunConfig where
  csvRows : Except String Nat
  cached : Option GenerationResult
  synthesis : Except String String
  validation : Except String String
  translation : Except String String
  rendering : Except String (String × String)
deriving Repr

/-- Modelled from the spec: the orchestrator state machine of §4.5.  Each
stage entered emits its event; a failing unit of work emits the terminal
`error` event and stops; a cache hit short-circuits from `csv_info`
directly to `done`; on full success the terminal `done` event carries the
result and both artifact references. -/
def orchestrate (cfg : RunConfig) : List ProgressEvent :=
  stageEvent .csv_info ::
    match cfg.csvRows with
    | .error msg => [errorEvent msg]
    | .ok _ =>
      match cfg.cached with
      | some r => [doneEvent r]
      | none =>
        stageEvent .invoking_graph ::
          match cfg.synthesis with
          | .error msg => [errorEvent msg]
          | .ok _ =>
            stageEvent .graph_complete ::
              match cfg.validation with
              | .error msg => [errorEvent msg]
              | .ok _ =>
                stageEvent .parsed :: stageEvent .translating ::
                  match cfg.translation with
                  | .error msg => [errorEvent msg]
                  | .ok draft =>
                    stageEvent .translated :: stageEvent .writing_file ::
                      match cfg.rendering with
                      | .error msg => [errorEvent msg]
                      | .ok files => [doneEvent ⟨draft, files.1, files.2⟩]

/-- Modelled from the spec: the non-streaming request variant — it blocks
until the pipeline reaches `done` or `error` and returns the final
`GenerationResult` (or the error message), computed directly from the
outcomes of the pipeline units without building an event trace. -/
def generateResumeBlocking (cfg : RunConfig) : Except String GenerationResult :=
  match cfg.csvRows with
  | .error msg => .error msg
  | .ok _ =>
    match cfg.cached with
    | some r => .ok r
    | none =>
      match cfg.synthesis with
      | .error msg => .error msg
      | .ok _ =>
        match cfg.validation with
        | .error msg => .error msg
        | .ok _ =>
          match cfg.translation with
          | .error msg => .error msg
          | .ok draft =>
            match cfg.rendering with
            | .error msg => .error msg
            | .ok files => .ok ⟨draft, files.1, files.2⟩

/-- The terminal event corresponding to a blocking outcome. -/
def terminalEventFor : Except String GenerationResult → ProgressEvent
  | .ok r => doneEvent r
  | .error msg => errorEvent msg

/-- Position of a stage name in the canonical `stageOrder` list. -/
def stageIdx (s : String) : Nat := stageOrder.indexOf s

/-- Successive canonical positions strictly increase. -/
def chainIncr : List String → Bool
  | [] => true
  | [_] => true
  | a :: b :: rest => Nat.blt (stageIdx a) (stageIdx b) && chainIncr (b :: rest)

/-- A list of stage names that is a strictly increasing subsequence of the
canonical order: consecutive positions strictly increase and every name
occurs in `stageOrder`. -/
def StrictlyOrderedStages (names : List String) : Prop :=
  chainIncr names = true ∧ names.all (fun n => stageOrder.contains n) = true

instance : DecidablePred StrictlyOrderedStages := fun names =>
  inferInstanceAs (Decidable (_ ∧ _))

/-- A non-empty stage sequence whose final element is terminal (`done` or
`error`) and in which no terminal stage occurs before the end. -/
def TerminatesOnce (t : List Stage) : Prop :=
  t ≠ [] ∧ (t.getLastD .error = .done ∨ t.getLastD .error = .error) ∧
    ∀ s ∈ t.dropLast, s ≠ .done ∧ s ≠ .error

instance : DecidablePred TerminatesOnce := fun t =>
  inferInstanceAs (Decidable (_ ∧ _ ∧ _))

@[simp]
theorem stageEvent_stage (s : Stage) : (stageEvent s).stage = s := rfl

@[simp]
theorem doneEvent_stage (r : GenerationResult) : (doneEvent r).stage = .done := rfl

@[simp]
theorem errorEvent_stage (msg : String) : (errorEvent msg).stage = .error := rfl

/-- C1.  For every run of the pipeline, the emitted stage sequence is
non-empty, ends in exactly one terminal stage (`done` or `error`) with no
terminal stage occurring earlier, and the non-`error` stage names form a
strictly increasing subsequence of the canonical `stageOrder`. -/
theorem stages_strictly_increasing_single_terminal (cfg : RunConfig) :
    TerminatesOnce ((orchestrate cfg).map ProgressEvent.stage) ∧
    StrictlyOrderedStages
      ((((orchestrate cfg).map ProgressEvent.stage).filter (· ≠ Stage.error)).map
        Stage.name) := by
  obtain ⟨csv, cached, synth, val, tr, rend⟩ := cfg
  cases csv <;> cases cached <;> cases synth <;> cases val <;> cases tr <;> cases rend <;>
    simp only [orchestrate, List.map_cons, List.map_nil, stageEvent_stage, doneEvent_stage,
      errorEvent_stage] <;>
    decide

/-- C2.  In every run, the `done` event carries the draft result and both
artifact references, the `error` event carries a human-readable message
and no artifact references; and a failed run (terminal `error`) contains
no `done` event and no event carrying artifact references. -/
theorem done_carries_artifacts_error_carries_none (cfg : RunConfig) :
    (∀ e ∈ orchestrate cfg,
       (e.stage = Stage.done → (∃ s p, e.files = some (s, p)) ∧ e.result.isSome = true) ∧
       (e.stage = Stage.error →
         e.message.isSome = true ∧ e.files = none ∧ e.result = none)) ∧
    ((orchestrate cfg).getLast?.map ProgressEvent.stage = some Stage.error →
       ∀ e ∈ orchestrate cfg, e.stage ≠ Stage.done ∧ e.files = none) := by
  obtain ⟨csv, cached, synth, val, tr, rend⟩ := cfg
  cases csv <;> cases cached <;> cases synth <;> cases val <;> cases tr <;> cases rend <;>
    simp [orchestrate, stageEvent, doneEvent, errorEvent] <;>
    exact ⟨_, _, rfl⟩

/-- A concrete run whose rendering step fails. -/
def cfgRenderFail : RunConfig :=
  ⟨.ok 5, none, .ok "draft", .ok "parsed", .ok "translated", .error "RenderError"⟩

/-- Witness for C2: in the concrete failed run, the terminal event is not
`done` and carries no artifact references. -/
theorem done_carries_artifacts_error_carries_none_witness :
    (errorEvent "RenderError").stage ≠ Stage.done ∧ (errorEvent "RenderError").files = none :=
  (done_carries_artifacts_error_carries_none cfgRenderFail).2 (by decide)
    (errorEvent "RenderError") (by decide)

/-- C3.  The non-streaming variant returns exactly the payload of the
terminal event of the streaming variant (the blocking outcome corresponds
to the last emitted event), and the frontend applies the same artifact
path normalisation in both variants (`fix` in `generateResume` equals
`toAbs` in `generateResumeStream`). -/
theorem nonstreaming_matches_streaming_terminal_payload :
    (∀ cfg : RunConfig,
       (orchestrate cfg).getLast? = some (terminalEventFor (generateResumeBlocking cfg))) ∧
    Api.fix = Api.toAbs := by
  constructor
  · intro cfg
    obtain ⟨csv, cached, synth, val, tr, rend⟩ := cfg
    cases csv <;> cases cached <;> cases synth <;> cases val <;> cases tr <;> cases rend <;>
      rfl
  · rfl

end Orchestrator

namespace Synth

/-- Modelled from the spec: one experience entry of a `ResumeDraft` (§3);
`start_date`/`end_date` are modelled as comparable time points. -/
structure DraftExperience where
  position : String
  company : String
  location : String
  start_date : Nat
  end_date : Nat
  description : String
deriving DecidableEq, Repr

/-- Modelled from the spec: one skill entry of a `ResumeDraft` (§3). -/
structure DraftSkill where
  name : String
  description : String
deriving DecidableEq, Repr

/-- Modelled from the spec: the `ResumeDraft` schema of §3. -/
structure ResumeDraft where
  language : String
  title : String
  professional_summary : String
  experience : List DraftExperience
  skills : List DraftSkill
deriving DecidableEq, Repr

/-- Modelled from the spec: the no-verbatim-company/no-job-title policy —
no skill description contains, as a contiguous substring, the company
name or the position title of any experience entry of the draft. -/
def skillPolicyOk (d : ResumeDraft) : Bool :=
  d.skills.all fun sk =>
    d.experience.all fun e =>
      !(containsStr sk.description e.company) && !(containsStr sk.description e.position)

/-- Experience entries sorted by `start_date` descending (most recent
first). -/
def sortedByStartDateDesc : List DraftExperience → Bool
  | [] => true
  | [_] => true
  | a :: b :: rest =>
    decide (b.start_date ≤ a.start_date) && sortedByStartDateDesc (b :: rest)

/-- Modelled from the spec: the synthesis validator of §4.2 step 4 —
structural schema check plus the minimum-experience rule (at least three
entries whenever at least three eligible records exist), the descending
ordering invariant and the no-company/no-job-title policy. -/
def validateDraft (eligible : Nat) (d : ResumeDraft) : Bool :=
  (!decide (3 ≤ eligible) || decide (3 ≤ d.experience.length)) &&
    sortedByStartDateDesc d.experience && skillPolicyOk d

/-- Modelled from the spec: the bounded validate-then-retry loop of §4.2 —
each model attempt is validated and the first valid draft is returned; if
every attempt of the (fixed, finite) attempt list fails validation the
synthesis fails with `SynthesisError`.  No unvalidated draft is ever
returned. -/
def synthesize (eligible : Nat) (attempts : List ResumeDraft) : Except String ResumeDraft :=
  match attempts with
  | [] => Except.error "SynthesisError"
  | d :: rest => if validateDraft eligible d = true then Except.ok d else synthesize eligible rest

theorem synthesize_ok_validates {eligible : Nat} :
    ∀ {attempts : List ResumeDraft} {d : ResumeDraft},
      synthesize eligible attempts = Except.ok d → validateDraft eligible d = true := by
  intro attempts
  induction attempts with
  | nil => intro d h; exact absurd h (by simp [synthesize])
  | cons d0 rest ih =>
    intro d h
    rw [synthesize] at h
    by_cases hv : validateDraft eligible d0 = true
    · rw [if_pos hv] at h
      cases h
      exact hv
    · rw [if_neg hv] at h
      exact ih h

/-- C4.  Every draft returned by a successful synthesis has passed the
policy validator: no skill description contains the verbatim company name
or position title of any experience entry.  The guarantee comes from the
validation step (`validateDraft` inside `synthesize`), not merely from
the prompt instruction. -/
theorem skills_never_contain_company_or_title (eligible : Nat)
    (attempts : List ResumeDraft) (d : ResumeDraft)
    (h : synthesize eligible attempts = Except.ok d) :
    skillPolicyOk d = true ∧
    ∀ sk ∈ d.skills, ∀ e ∈ d.experience,
      containsStr sk.description e.company = false ∧
      containsStr sk.description e.position = false := by
  have hv := synthesize_ok_validates h
  rw [validateDraft, Bool.and_eq_true, Bool.and_eq_true] at hv
  refine ⟨hv.2, ?_⟩
  intro sk hsk e he
  have := hv.2
  rw [skillPolicyOk, List.all_eq_true] at this
  have := this sk hsk
  rw [List.all_eq_true] at this
  have := this e he
  rw [Bool.and_eq_true, Bool.not_eq_true', Bool.not_eq_true'] at this
  exact this

theorem sortedByStartDateDesc_chain :
    ∀ {l : List DraftExperience}, sortedByStartDateDesc l = true →
      (l.map DraftExperience.start_date).Chain' (fun x y => y ≤ x) := by
  intro l
  induction l with
  | nil => intro _; simp
  | cons a rest ih =>
    intro h
    cases rest with
    | nil => simp
    | cons b rest' =>
      rw [sortedByStartDateDesc, Bool.and_eq_true, decide_eq_true_eq] at h
      exact List.Chain'.cons h.1 (ih h.2)

/-- C5.  When at least three eligible experience records exist, every
successfully synthesized draft has at least three experience entries, and
its experience list is sorted by `start_date` descending. -/
theorem experience_at_least_three_sorted_desc (eligible : Nat)
    (attempts : List ResumeDraft) (d : ResumeDraft)
    (heligible : 3 ≤ eligible) (h : synthesize eligible attempts = Except.ok d) :
    3 ≤ d.experience.length ∧ sortedByStartDateDesc d.experience = true ∧
      (d.experience.map DraftExperience.start_date).Chain' (fun x y => y ≤ x) := by
  have hv := synthesize_ok_validates h
  rw [validateDraft, Bool.and_eq_true, Bool.and_eq_true] at hv
  have hlen : 3 ≤ d.experience.length := by
    have h1 := hv.1.1
    rw [Bool.or_eq_true, Bool.not_eq_true', decide_eq_false_iff_not] at h1
    rcases h1 with h1 | h1
    · exact absurd heligible h1
    · exact of_decide_eq_true h1
  exact ⟨hlen, hv.1.2, sortedByStartDateDesc_chain hv.1.2⟩

/-- Modelled from the spec: a job description with its distinct facets
(responsibilities, required skills, domain keywords) and the enumerated
skill/technology terms (§4.2 step 1). -/
structure JobDescription where
  raw_text : String
  responsibilities : String
  required_skills : String
  domain_keywords : String
  skill_terms : List String
deriving DecidableEq, Repr

/-- The facet of the job description a retrieval query is derived from. -/
inductive QueryFacet where
  | responsibilities
  | requiredSkills
  | domainKeywords
  | term (t : String)
deriving DecidableEq, Repr

/-- A retrieval query issued against the experience store (one
`ChromaDBTool` call). -/
structure RetrievalQuery where
  facet : QueryFacet
  text : String
deriving DecidableEq, Repr

/-- Modelled from the spec: the retrieval queries issued by the
synthesizer (§4.2 step 1) — one query per distinct facet, always at least
three, plus one query per enumerated skill term when the description
enumerates at least four of them. -/
def retrievalQueries (jd : JobDescription) : List RetrievalQuery :=
  ⟨.responsibilities, jd.responsibilities⟩ ::
    ⟨.requiredSkills, jd.required_skills⟩ ::
      ⟨.domainKeywords, jd.domain_keywords⟩ ::
        (if 4 ≤ jd.skill_terms.length then jd.skill_terms.map (fun t => ⟨.term t, t⟩) else [])

/-- Modelled from the spec: a synthesis run records the `ChromaDBTool`
calls it issues alongside its outcome. -/
def synthesizeRun (jd : JobDescription) (eligible : Nat) (attempts : List ResumeDraft) :
    List RetrievalQuery × Except String ResumeDraft :=
  (retrievalQueries jd, synthesize eligible attempts)

/-- C6.  Every successful synthesis issues at least three retrieval
queries, and the first three are pairwise distinct (they are derived from
distinct facets of the job description). -/
theorem at_least_three_distinct_queries (jd : JobDescription) (eligible : Nat)
    (attempts : List ResumeDraft) (d : ResumeDraft)
    (h : (synthesizeRun jd eligible attempts).2 = Except.ok d) :
    3 ≤ (synthesizeRun jd eligible attempts).1.length ∧
      ((synthesizeRun jd eligible attempts).1.take 3).Nodup := by
  constructor
  · show 3 ≤ (retrievalQueries jd).length
    rw [retrievalQueries]
    simp only [List.length_cons]
    omega
  · show ((retrievalQueries jd).take 3).Nodup
    rw [retrievalQueries]
    simp [List.take, List.nodup_cons]

/-- A concrete valid draft used by the synthesis witnesses. -/
def draftW : ResumeDraft :=
  ⟨"EN", "Data Engineer", "Summary",
    [⟨"Engineer", "Acme", "X", 30, 31, "built pipelines"⟩,
     ⟨"Analyst", "Globex", "Y", 20, 21, "analyzed data"⟩,
     ⟨"Intern", "Initech", "Z", 10, 11, "helped the team"⟩],
    [⟨"SQL", "wrote fast queries"⟩]⟩

/-- Witness for C4: on a concrete successful synthesis the policy check
holds. -/
theorem skills_never_contain_company_or_title_witness :
    skillPolicyOk draftW = true :=
  (skills_never_contain_company_or_title 3 [draftW] draftW rfl).1

/-- Witness for C5: on a concrete successful synthesis with three
eligible records the draft has three experience entries, sorted by
`start_date` descending. -/
theorem experience_at_least_three_sorted_desc_witness :
    3 ≤ draftW.experience.length ∧ sortedByStartDateDesc draftW.experience = true :=
  let h := experience_at_least_three_sorted_desc 3 [draftW] draftW (by decide) rfl
  ⟨h.1, h.2.1⟩

/-- A concrete job description used by the C6 witness. -/
def jdW : JobDescription :=
  ⟨"raw", "ship features", "sql, python", "retail", ["sql", "python", "dbt", "airflow"]⟩

/-- Witness for C6: the concrete run issues at least three pairwise
distinct queries. -/
theorem at_least_three_distinct_queries_witness :
    3 ≤ (synthesizeRun jdW 3 [draftW]).1.length ∧
      ((synthesizeRun jdW 3 [draftW]).1.take 3).Nodup :=
  at_least_three_distinct_queries jdW 3 [draftW] draftW rfl

end Synth

namespace Store

/-- Insertion step of a stable comparison sort (models the effect of
`Array.prototype.sort` up to permutation). -/
def insertSorted {α : Type} (le : α → α → Bool) (x : α) : List α → List α
  | [] => [x]
  | y :: ys => if le x y then x :: y :: ys else y :: insertSorted le x ys

/-- Comparison sort by repeated insertion. -/
def sortBy {α : Type} (le : α → α → Bool) (l : List α) : List α :=
  l.foldr (insertSorted le) []

theorem insertSorted_perm {α : Type} (le : α → α → Bool) (x : α) :
    ∀ l : List α, (insertSorted le x l).Perm (x :: l) := by
  intro l
  induction l with
  | nil => simp [insertSorted]
  | cons y ys ih =>
    rw [insertSorted]
    by_cases h : le x y = true
    · rw [if_pos h]
    · rw [if_neg h]
      exact (ih.cons y).trans (List.Perm.swap x y ys)

theorem sortBy_perm {α : Type} (le : α → α → Bool) :
    ∀ l : List α, (sortBy le l).Perm l := by
  intro l
  induction l with
  | nil => simp [sortBy]
  | cons y ys ih =>
    exact (insertSorted_perm le y (sortBy le ys)).trans (ih.cons y)

/-- The sort key of `normalizeExperience`
(`frontend/src/services/firebase.ts`): the lowercased join of type, role,
company, start, end and location, separated by bars. -/
def normKey (e : ResumeEntry) : String :=
  lowerStr (String.intercalate "|"
    [e.type, e.role, e.company.getD "", e.start.getD "", e.end_.getD "", e.location.getD ""])

/-- Comparator modelling `key(a).localeCompare(key(b))`. -/
def normLe (a b : ResumeEntry) : Bool := decide (normKey a ≤ normKey b)

/-- The field projection applied by `normalizeExperience` to each entry
(all eight `ResumeEntry` fields, in declaration order). -/
def projEntry (e : ResumeEntry) : ResumeEntry :=
  ⟨e.type, e.role, e.company, e.location, e.start, e.end_, e.description, e.role_description⟩

/-- Function `extractExperience` (`frontend/src/services/firebase.ts`): keep every
entry whose type is not `info`. -/
def extractExperience (entries : List ResumeEntry) : List ResumeEntry :=
  entries.filter (fun e => decide (e.type ≠ "info"))

/-- Function `normalizeExperience` (`frontend/src/services/firebase.ts`): project
each entry to its eight fields and sort by the normalised key.  The
`JSON.stringify` comparison of the code is modelled by structural list
equality (stringify is injective on this record shape). -/
def normalizeExperience (entries : List ResumeEntry) : List ResumeEntry :=
  sortBy normLe (entries.map projEntry)

/-- Outcome record of `saveUserDataIfExperienceChanged`. -/
structure SaveOutcome where
  updated : Bool
  reason : String
deriving DecidableEq, Repr

/-- The decision logic of `saveUserDataIfExperienceChanged`
(`frontend/src/services/firebase.ts`), with Firestore I/O abstracted to
the previous document contents: no existing document saves
unconditionally; otherwise the document is saved exactly when the
normalised experience sets differ (the error-fallback path of the code is
about Firestore failures and is outside this pure model). -/
def saveUserDataIfExperienceChanged (prev : Option (List ResumeEntry))
    (next : List ResumeEntry) : SaveOutcome :=
  match prev with
  | none => ⟨true, "no-existing-doc"⟩
  | some prevEntries =>
    if normalizeExperience (extractExperience prevEntries) =
        normalizeExperience (extractExperience next)
    then ⟨false, "experience-unchanged"⟩
    else ⟨true, "experience-changed"⟩

/-- Modelled from the spec: the experience-set fingerprint — a stable
hash of the user's experience records; the hash is modelled by the
normalised experience list itself (an injective summary). -/
def experienceFingerprint (entries : List ResumeEntry) : List ResumeEntry :=
  normalizeExperience (extractExperience entries)

/-- Modelled from the spec: the idempotency key — user id, normalised job
description, format, model id and the experience-set fingerprint. -/
structure CacheKey where
  user_id : String
  job_description : String
  format : String
  model_id : String
  fingerprint : List ResumeEntry
deriving DecidableEq, Repr

/-- Modelled from the spec: lookup in the generation cache
(`resume_generation_cache`), keyed by the idempotency key. -/
def cacheLookup (store : List (CacheKey × String)) (k : CacheKey) : Option String :=
  (store.find? (fun kv => kv.1 == k)).map Prod.snd

theorem normalizeExperience_perm (l : List ResumeEntry) :
    (normalizeExperience l).Perm l := by
  have hmap : l.map projEntry = l := by
    rw [show projEntry = id from funext fun e => rfl, List.map_id]
  rw [normalizeExperience, hmap]
  exact sortBy_perm normLe l

theorem fingerprint_changes (a b : List ResumeEntry) (r r' : ResumeEntry)
    (hr : r.type ≠ "info") (hr' : r'.type ≠ "info") (hne : r ≠ r') :
    experienceFingerprint (a ++ r :: b) ≠ experienceFingerprint (a ++ r' :: b) := by
  intro h
  have hext : ∀ (x : ResumeEntry), x.type ≠ "info" → ∀ l l',
      extractExperience (l ++ x :: l') =
        extractExperience l ++ x :: extractExperience l' := by
    intro x hx l l'
    rw [extractExperience, List.filter_append, List.filter_cons_of_pos (by simpa using hx)]
    rfl
  have h1 : (experienceFingerprint (a ++ r :: b)).Perm
      (extractExperience a ++ r :: extractExperience b) := by
    rw [experienceFingerprint, hext r hr]
    exact normalizeExperience_perm _
  have h2 : (experienceFingerprint (a ++ r' :: b)).Perm
      (extractExperience a ++ r' :: extractExperience b) := by
    rw [experienceFingerprint, hext r' hr']
    exact normalizeExperience_perm _
  have hperm : (extractExperience a ++ r :: extractExperience b).Perm
      (extractExperience a ++ r' :: extractExperience b) :=
    (h1.symm.trans (h ▸ h2)).symm.symm
  have hcount := hperm.count_eq r
  rw [List.count_append, List.count_append, List.count_cons, List.count_cons] at hcount
  have hbeq : (r' == r) = false := by
    simpa using fun hgg => hne hgg.symm
  rw [hbeq] at hcount
  simp at hcount

/-- C7.  Editing any experience (non-`info`) record changes the user's
experience-set fingerprint, makes `saveUserDataIfExperienceChanged`
report the change, and makes every cache entry keyed on the old
fingerprint invisible to the lookup for the edited state, so an identical
follow-up request recomputes instead of reusing the cache. -/
theorem edit_invalidates_cached_results (a b : List ResumeEntry) (r r' : ResumeEntry)
    (uid jd fmt model : String) (store : List (CacheKey × String))
    (hr : r.type ≠ "info") (hr' : r'.type ≠ "info") (hne : r ≠ r')
    (hstore : ∀ kv ∈ store,
      kv.1 = CacheKey.mk uid jd fmt model (experienceFingerprint (a ++ r :: b))) :
    (saveUserDataIfExperienceChanged (some (a ++ r :: b)) (a ++ r' :: b)).updated = true ∧
    experienceFingerprint (a ++ r' :: b) ≠ experienceFingerprint (a ++ r :: b) ∧
    cacheLookup store
      (CacheKey.mk uid jd fmt model (experienceFingerprint (a ++ r' :: b))) = none := by
  have hfp := fingerprint_changes a b r r' hr hr' hne
  refine ⟨?_, fun h => hfp h.symm, ?_⟩
  · show (if experienceFingerprint (a ++ r :: b) = experienceFingerprint (a ++ r' :: b)
        then (⟨false, "experience-unchanged"⟩ : SaveOutcome)
        else ⟨true, "experience-changed"⟩).updated = true
    rw [if_neg hfp]
  · rw [cacheLookup, List.find?_eq_none.mpr, Option.map_none']
    intro kv hkv
    rw [hstore kv hkv]
    simp only [beq_iff_eq, CacheKey.mk.injEq]
    intro hcontra
    exact hfp hcontra.2.2.2.2

/-- Concrete entries for the C7 witness: the same job record before and
after a description edit. -/
def entryBefore : ResumeEntry :=
  ⟨"job", "Dev", some "Acme", none, some "01/2020", some "present", some "built the api", none⟩

/-- The edited version of `entryBefore`. -/
def entryAfter : ResumeEntry :=
  ⟨"job", "Dev", some "Acme", none, some "01/2020", some "present", some "built the apis", none⟩

/-- A concrete cache holding one result keyed on the old fingerprint. -/
def storeW : List (CacheKey × String) :=
  [(CacheKey.mk "u" "jd" "latex" "m" (experienceFingerprint [entryBefore]), "cached-result")]

/-- Witness for C7: editing the description of the single job record flips
the save decision, changes the fingerprint and defeats the cache lookup. -/
theorem edit_invalidates_cached_results_witness :
    (saveUserDataIfExperienceChanged (some [entryBefore]) [entryAfter]).updated = true ∧
    experienceFingerprint [entryAfter] ≠ experienceFingerprint [entryBefore] ∧
    cacheLookup storeW
      (CacheKey.mk "u" "jd" "latex" "m" (experienceFingerprint [entryAfter])) = none :=
  edit_invalidates_cached_results [] [] entryBefore entryAfter "u" "jd" "latex" "m" storeW
    (by decide) (by decide) (by decide) (by decide)

end Store

namespace Retriever

/-- A row of the `resume_vectors` table
(`backend/docker-initdb.d/init-pgvector.sql`): id, owner, content and the
`vector(768)` embedding (vector entries modelled as rationals). -/
structure VectorRecord where
  id : String
  user_id : String
  content : String
  embedding : List ℚ
deriving DecidableEq, Repr

/-- The dimensionality constraint enforced by the `vector(768)` column
type of `resume_vectors`. -/
def rowValid (r : VectorRecord) : Prop := r.embedding.length = 768

/-- The retrieval error taxonomy of §7 relevant to the store. -/
inductive RetrievalError where
  | retrievalUnavailable
  | embeddingVersionMismatch
deriving DecidableEq, Repr

/-- Similarity score used for ranking (inner product; the spec's cosine
ranking is modelled by a concrete score on the unmodified vectors). -/
def dot (a b : List ℚ) : ℚ := ((a.zip b).map (fun p => p.1 * p.2)).sum

/-- Modelled from the spec: `Retriever.search` (§4.1) — if any record's
embedding dimensionality differs from the query embedding's, the search
fails with `EmbeddingVersionMismatch` (no silent truncation or padding);
otherwise the records are ranked by descending similarity and the top `k`
are returned unmodified. -/
def search (records : List VectorRecord) (queryEmb : List ℚ) (k : Nat) :
    Except RetrievalError (List VectorRecord) :=
  if records.all (fun r => r.embedding.length == queryEmb.length) then
    Except.ok
      ((Store.sortBy
          (fun r1 r2 => decide (dot r2.embedding queryEmb ≤ dot r1.embedding queryEmb))
          records).take k)
  else Except.error RetrievalError.embeddingVersionMismatch

/-- C8.  Every schema-valid stored record has a 768-dimensional embedding,
and `search` succeeds on a 768-dimensional query returning only stored
records with their embeddings untouched (still 768-dimensional — nothing
is truncated or padded), while any dimensionality mismatch between a
record and the query makes the search fail with
`EmbeddingVersionMismatch`. -/
theorem search_dimension_check (records : List VectorRecord) (queryEmb : List ℚ) (k : Nat) :
    ((∀ r ∈ records, rowValid r) → queryEmb.length = 768 →
      ∃ out, search records queryEmb k = Except.ok out ∧
        ∀ r ∈ out, r ∈ records ∧ r.embedding.length = 768) ∧
    ((∃ r ∈ records, r.embedding.length ≠ queryEmb.length) →
      search records queryEmb k = Except.error RetrievalError.embeddingVersionMismatch) := by
  constructor
  · intro hvalid hq
    have hall : records.all (fun r => r.embedding.length == queryEmb.length) = true := by
      rw [List.all_eq_true]
      intro r hrmem
      simpa [hq] using hvalid r hrmem
    refine ⟨_, by rw [search, if_pos hall], ?_⟩
    intro r hrout
    have hmem : r ∈ records :=
      ((Store.sortBy_perm _ records).mem_iff).mp (List.mem_of_mem_take hrout)
    exact ⟨hmem, hvalid r hmem⟩
  · intro hbad
    obtain ⟨r, hrmem, hrlen⟩ := hbad
    have hall : records.all (fun r => r.embedding.length == queryEmb.length) = false := by
      by_contra hcontra
      rw [Bool.not_eq_false, List.all_eq_true] at hcontra
      exact hrlen (by simpa using hcontra r hrmem)
    rw [search, if_neg (by simp [hall])]

/-- A concrete valid store and query for the C8 witness. -/
def recordsW : List VectorRecord :=
  [⟨"row1", "u", "built the api", List.replicate 768 (1 : ℚ)⟩]

/-- Witness for C8: on the concrete one-record store and a 768-dimensional
query, the search succeeds and returns only stored, untruncated records. -/
theorem search_dimension_check_witness :
    ∃ out, search recordsW (List.replicate 768 (0 : ℚ)) 5 = Except.ok out ∧
      ∀ r ∈ out, r ∈ recordsW ∧ r.embedding.length = 768 :=
  (search_dimension_check recordsW (List.replicate 768 (0 : ℚ)) 5).1
    (by
      intro r hr
      rw [recordsW, List.mem_singleton] at hr
      subst hr
      show (List.replicate 768 (1 : ℚ)).length = 768
      exact List.length_replicate _ _)
    (List.length_replicate _ _)

end Retriever

end BetterResume
